import Mathlib

/-!
Shallow embedding of the nussif-scraper ingestion pipeline.

Modules covered (translated from the Python source under `src/`):
* `scraper/parse.py`   — report-row parsing, amount-range and
  transaction-type normalizers;
* `scraper/ptr_details.py` — PTR detail-page table extraction and
  trade-row parsing;
* `scraper/pipeline.py` — the per-report trade-fetch loop;
* `scraper/fetch.py`   — paginated report listing;
* `db/upsert.py`       — deduplicating upsert of trades;
* `db/prices.py`       — price cache lookups.

Conventions: machine floats are modelled as rationals (all literal
values in the spec are exactly representable); calendar dates are a
`(year, month, day)` structure for the scraper and plain day numbers
for the price cache; raised Python exceptions are `Except.error`;
HTML documents fetched over the network become structured values
(tables, rows, cells) together with their raw text, and the
BeautifulSoup anchor extraction used on listing rows is implemented
as a small character-level scanner over the markup string.
-/

namespace Nussif

/-! ### Small string utilities (Python `str` operations) -/

/-- Whitespace characters recognised by Python `str.strip()` (ASCII subset). -/
def pyIsSpace (c : Char) : Bool :=
  c = ' ' || c = '\t' || c = '\n' || c = '\r' || c = '\x0b' || c = '\x0c'

/-- Strip characters satisfying `p` from both ends of a character list. -/
def trimCharsBy (p : Char → Bool) (l : List Char) : List Char :=
  ((l.dropWhile p).reverse.dropWhile p).reverse

/-- Python `s.strip()`. -/
def pyStrip (s : String) : String :=
  String.mk (trimCharsBy pyIsSpace s.toList)

/-- ASCII lower-casing of one character (Python `str.lower` on ASCII). -/
def charLower (c : Char) : Char :=
  if 'A' ≤ c ∧ c ≤ 'Z' then Char.ofNat (c.toNat + 32) else c

/-- Python `s.lower()` (ASCII). -/
def lowerStr (s : String) : String :=
  String.mk (s.toList.map charLower)

/-- Does `pat` occur at the head of `hay`? -/
def leadsWith : List Char → List Char → Bool
  | [], _ => true
  | _ :: _, [] => false
  | p :: ps, h :: hs => p = h && leadsWith ps hs

/-- Does `pat` occur anywhere inside `hay`? (Python `pat in hay`.) -/
def listHasSub : List Char → List Char → Bool
  | [], pat => leadsWith pat []
  | h :: t, pat => leadsWith pat (h :: t) || listHasSub t pat

/-- Python `pat in s` on strings. -/
def strContains (s pat : String) : Bool :=
  listHasSub s.toList pat.toList

/-- Python `s.startswith(pat)`. -/
def strStarts (s pat : String) : Bool :=
  leadsWith pat.toList s.toList

/-- Python `s.replace(old, "")` for a single character `old`. -/
def removeChar (c : Char) (s : String) : String :=
  String.mk (s.toList.filter (· ≠ c))

/-- Split a character list at every occurrence of `c` (Python `s.split(c)`). -/
def splitOnChar (c : Char) : List Char → List (List Char)
  | [] => [[]]
  | h :: t =>
    match splitOnChar c t with
    | [] => if h = c then [[], []] else [[h]]
    | g :: gs => if h = c then [] :: g :: gs else (h :: g) :: gs

/-- Python `s.split(c)` on strings. -/
def pySplit (c : Char) (s : String) : List String :=
  (splitOnChar c s.toList).map String.mk

/-- Python `s.split(c, 1)`: split at the first occurrence only; `none`
when the separator does not occur. -/
def splitFirst (c : Char) : List Char → Option (List Char × List Char)
  | [] => none
  | h :: t =>
    if h = c then some ([], t)
    else (splitFirst c t).map (fun q => (h :: q.1, q.2))

/-- Numeric value of a digit list (most significant first). -/
def digitsVal (l : List Char) : Nat :=
  l.foldl (fun acc c => acc * 10 + (c.toNat - '0'.toNat)) 0

/-! ### Python `float()` on plain decimal strings

Model of the `float(...)` builtin restricted to the decimal forms that
amount strings can take after `$`/`,` removal: optional sign, digits,
optional fractional part.  Exponent, `inf` and `nan` forms are outside
the model.  A `none` result is Python `ValueError`. -/

/-- The rational `i + f / 10 ^ k`, written with `mkRat` so that it
evaluates by kernel reduction (the `Rat` arithmetic operations are
irreducible); `decimalVal_eq` below proves the arithmetic reading. -/
def decimalVal (i f k : Nat) : ℚ :=
  mkRat (i * 10 ^ k + f) (10 ^ k)

def pyFloatCore (cs : List Char) : Option ℚ :=
  let intPart := cs.takeWhile Char.isDigit
  let rest := cs.dropWhile Char.isDigit
  match rest with
  | [] =>
    if intPart.isEmpty then none
    else some ((digitsVal intPart : ℤ) : ℚ)
  | '.' :: frac =>
    let fracPart := frac.takeWhile Char.isDigit
    if (frac.dropWhile Char.isDigit).isEmpty then
      if intPart.isEmpty && fracPart.isEmpty then none
      else some (decimalVal (digitsVal intPart) (digitsVal fracPart) fracPart.length)
    else none
  | _ => none

/-- Python `float(s)` (decimal forms; see `pyFloatCore`). -/
def pyFloat (s : String) : Option ℚ :=
  match (pyStrip s).toList with
  | '-' :: t => (pyFloatCore t).map (fun q => -q)
  | '+' :: t => pyFloatCore t
  | cs => pyFloatCore cs

/-! ### Dates and Python `strptime(s, "%m/%d/%Y")` -/

/-- A calendar date as parsed by `datetime.strptime`. -/
structure SDate where
  year : Nat
  month : Nat
  day : Nat
deriving DecidableEq, Repr

/-- Gregorian leap-year rule (as validated by `datetime.date`). -/
def isLeap (y : Nat) : Bool :=
  (y % 4 = 0 && y % 100 ≠ 0) || y % 400 = 0

/-- Days in a month (as validated by `datetime.date`). -/
def daysInMonth (y m : Nat) : Nat :=
  if m = 2 then (if isLeap y then 29 else 28)
  else if m = 4 ∨ m = 6 ∨ m = 9 ∨ m = 11 then 30
  else 31

/-- `datetime.strptime(s, "%m/%d/%Y").date()`: two slash-separated
1–2 digit fields and a 4-digit year, with calendar validation; `none`
is Python `ValueError`. -/
def pyStrptimeDate (s : String) : Option SDate :=
  match pySplit '/' s with
  | [ms, ds, ys] =>
    if ms.toList.all Char.isDigit && ds.toList.all Char.isDigit &&
        ys.toList.all Char.isDigit &&
        (ms.length = 1 || ms.length = 2) &&
        (ds.length = 1 || ds.length = 2) && ys.length = 4 then
      let m := digitsVal ms.toList
      let d := digitsVal ds.toList
      let y := digitsVal ys.toList
      if 1 ≤ m ∧ m ≤ 12 ∧ 1 ≤ d ∧ d ≤ daysInMonth y m ∧ 1 ≤ y then
        some ⟨y, m, d⟩
      else none
    else none
  | _ => none

/-! ### `scraper/parse.py` — amount-range and transaction-type normalizers -/

/-- Strip `$` and `,` and surrounding whitespace (the cleaning applied to
each numeric fragment in `parse_amount_range`). -/
def cleanMoney (s : String) : String :=
  pyStrip (removeChar ',' (removeChar '$' s))

/-- The rational `(l + h) / 2`, written with `mkRat` so that it evaluates
by kernel reduction; `ratMidpoint_eq` below proves the arithmetic
reading `(low + high) / 2` used by the source. -/
def ratMidpoint (l h : ℚ) : ℚ :=
  mkRat (l.num * h.den + h.num * l.den) (l.den * h.den * 2)

/-- The two-halves case of `parse_amount_range`: clean and parse both
sides of the first `-`; on success also compute the midpoint. -/
def parseRangeHalves (lo hi : List Char) : Option ℚ × Option ℚ × Option ℚ :=
  match pyFloat (cleanMoney (String.mk lo)), pyFloat (cleanMoney (String.mk hi)) with
  | some l, some h => (some l, some h, some (ratMidpoint l h))
  | _, _ => (none, none, none)

/-- `parse_amount_range` from `scraper/parse.py`: amount string to
`(min, max, midpoint)`; `none` components are Python `None`. -/
def parse_amount_range (amount_str : Option String) :
    Option ℚ × Option ℚ × Option ℚ :=
  match amount_str with
  | none => (none, none, none)
  | some a =>
    if a = "" then (none, none, none)
    else
      let s := pyStrip a
      if strStarts (lowerStr s) "over" then
        let numPart := cleanMoney (String.mk (s.toList.drop 4))
        match pyFloat numPart with
        | none => (none, none, none)
        | some v => (some v, none, none)
      else if strContains s "-" then
        match splitFirst '-' s.toList with
        | none => (none, none, none)
        | some (lo, hi) => parseRangeHalves lo hi
      else
        match pyFloat (cleanMoney s) with
        | none => (none, none, none)
        | some v => (some v, some v, some v)

/-- `normalize_transaction_type` from `scraper/parse.py`. -/
def normalize_transaction_type (raw : Option String) : Option String :=
  match raw with
  | none => none
  | some r =>
    let text := lowerStr (pyStrip r)
    if text = "" then none
    else if strContains text "purchase" || text = "p" then some "BUY"
    else if strContains text "sale" || text = "s" then some "SELL"
    else if strContains text "exchange" then some "EXCHANGE"
    else some (pyStrip r)

/-! ### BeautifulSoup anchor extraction (`soup.find("a")` on a listing cell)

The listing row's link cell is raw HTML markup.  `parse_report_row`
feeds it to BeautifulSoup and takes the first `<a>` tag, its `href`
attribute and its visible text.  The scanner below implements that
extraction for plain markup (double-quoted attributes, tag-stripped
inner text joined as written, then stripped of whitespace). -/

/-- An `<a>` tag as seen by `soup.find("a")`: its `href` attribute (if
any) and its visible text. -/
structure Anchor where
  href : Option String
  text : String
deriving DecidableEq, Repr

/-- Find the first occurrence of `pat` in `hay` and return the suffix
that follows it. -/
def dropToAfter : List Char → List Char → Option (List Char)
  | [], pat => if pat.isEmpty then some [] else none
  | h :: t, pat =>
    if leadsWith pat (h :: t) then some ((h :: t).drop pat.length)
    else dropToAfter t pat

/-- The characters of `hay` before the first occurrence of `pat`
(all of `hay` when `pat` does not occur). -/
def takeUntilPat : List Char → List Char → List Char
  | [], _ => []
  | h :: t, pat =>
    if leadsWith pat (h :: t) then [] else h :: takeUntilPat t pat

/-- Locate the first `<a ...>` or `<a>` tag: returns the attribute
characters and the characters following the closing `>`. -/
def findTagOpen : List Char → Option (List Char × List Char)
  | [] => none
  | c :: t =>
    match c, t with
    | '<', 'a' :: rest =>
      match rest with
      | [] => findTagOpen t
      | r :: _ =>
        if r = '>' ∨ r = ' ' then
          some (rest.takeWhile (· ≠ '>'), (rest.dropWhile (· ≠ '>')).drop 1)
        else findTagOpen t
    | _, _ => findTagOpen t

/-- Remove `<...>` tag spans from a character stream (the flattening
done by `get_text`). -/
def stripTagsGo : Bool → List Char → List Char
  | _, [] => []
  | true, c :: t => if c = '>' then stripTagsGo false t else stripTagsGo true t
  | false, c :: t => if c = '<' then stripTagsGo true t else c :: stripTagsGo false t

def stripTags (l : List Char) : List Char :=
  stripTagsGo false l

/-- The `href="..."` attribute value inside a tag's attribute characters. -/
def extractHref (attrs : List Char) : Option String :=
  (dropToAfter attrs "href=\"".toList).map
    (fun rest => String.mk (rest.takeWhile (· ≠ '"')))

/-- `soup.find("a")` on the raw markup of one listing cell. -/
def soupFindAnchor (html : String) : Option Anchor :=
  match findTagOpen html.toList with
  | none => none
  | some (attrs, after) =>
    some { href := extractHref attrs
           text := pyStrip (String.mk (stripTags (takeUntilPat after "</a".toList))) }

/-! ### `scraper/parse.py` — `parse_report_row` / `parse_report_rows` -/

def BASE_URL : String := "https://efdsearch.senate.gov"

/-- Python `path.strip("/")`. -/
def stripSlashes (s : String) : String :=
  String.mk (trimCharsBy (· = '/') s.toList)

/-- The `search/view/{format}/{id}` decomposition of a report path:
`some (format, id)` when the stripped path splits into at least four
segments starting `search / view`, `none` otherwise. -/
def pathShapeParts (path : String) : Option (String × String) :=
  let parts := pySplit '/' (stripSlashes path)
  if 4 ≤ parts.length ∧ parts.getD 0 "" = "search" ∧ parts.getD 1 "" = "view" then
    some (parts.getD 2 "", parts.getD 3 "")
  else none

/-- Report-type classification from the link's visible text. -/
def classifyReportType (title : String) : String :=
  let titleLower := lowerStr title
  if strContains titleLower "periodic transaction report" then "PTR"
  else if strContains titleLower "annual report" then "Annual"
  else if strContains titleLower "extension" then "Extension"
  else "Other"

/-- The dict produced by `parse_report_row`. -/
structure ReportRecord where
  senator_first_name : String
  senator_last_name : String
  senator_display_name : String
  chamber : String
  report_type : String
  report_format : Option String
  report_id : Option String
  report_url : String
  report_path : String
  report_title : String
  filing_date : SDate
  raw_link_html : String
  is_ptr : Bool
deriving DecidableEq, Repr

/-- Does the link cell decompose into an `<a>` tag with a truthy
`href`?  (`parse_report_row` raises when `a is None or not a.get("href")`.) -/
def rowLinkOk (linkHtml : String) : Bool :=
  match soupFindAnchor linkHtml with
  | none => false
  | some a => !(a.href.getD "" = "")

/-- `parse_report_row` from `scraper/parse.py`.  A raised `ValueError`
is `Except.error` (messages abbreviated). -/
def parse_report_row (row : List String) : Except String ReportRecord :=
  if row.length < 5 then .error "Unexpected report row length"
  else
    let first_name := row.getD 0 ""
    let last_name := row.getD 1 ""
    let role := row.getD 2 ""
    let link_html := row.getD 3 ""
    let filed_str := row.getD 4 ""
    match soupFindAnchor link_html with
    | none => .error "Could not find a tag with href in link_html"
    | some a =>
      if a.href.getD "" = "" then .error "Could not find a tag with href in link_html"
      else
        let report_path := a.href.getD ""
        let report_title := a.text
        let report_url :=
          if strStarts report_path "http://" || strStarts report_path "https://" then
            report_path
          else BASE_URL ++ report_path
        let fmtId := pathShapeParts report_path
        let report_type := classifyReportType report_title
        match pyStrptimeDate filed_str with
        | none => .error "time data does not match format mm dd yyyy"
        | some filing_date =>
          .ok { senator_first_name := pyStrip first_name
                senator_last_name := pyStrip last_name
                senator_display_name := pyStrip role
                chamber := "Senate"
                report_type := report_type
                report_format := fmtId.map (·.1)
                report_id := fmtId.map (·.2)
                report_url := report_url
                report_path := report_path
                report_title := report_title
                filing_date := filing_date
                raw_link_html := link_html
                is_ptr := report_type = "PTR" }

/-- `parse_report_rows`: a plain list comprehension, so the first raised
error aborts the whole batch. -/
def parse_report_rows : List (List String) → Except String (List ReportRecord)
  | [] => .ok []
  | r :: rs =>
    match parse_report_row r with
    | .error e => .error e
    | .ok rec0 =>
      match parse_report_rows rs with
      | .error e => .error e
      | .ok rest => .ok (rec0 :: rest)

/-! ### `scraper/ptr_details.py` — PTR detail pages

A fetched detail page is modelled structurally: the `<table>` elements
BeautifulSoup would find (in document order), each with the stripped
text of its `<caption>` (if any), whether it carries the standard
`table` class, and its `<tbody>` rows; plus the raw response text used
for the landing-page marker check. -/

/-- One `<td>` cell: its stripped text and, when the cell embeds an
`<a>` tag, that tag's stripped text. -/
structure Td where
  text : String
  link : Option String
deriving DecidableEq, Repr

/-- One `<tr>` row of a transactions table body. -/
structure Tr where
  tds : List Td
deriving DecidableEq, Repr

/-- One `<table>` element of a detail page. -/
structure HtmlTable where
  caption : Option String
  hasTableClass : Bool
  tbody : Option (List Tr)
deriving DecidableEq, Repr

/-- A fetched detail-page document. -/
structure Html where
  text : String
  tables : List HtmlTable
deriving DecidableEq, Repr

/-- `_find_transactions_table`: first table whose caption mentions
"transaction" (case-insensitive); else the first table with the
standard class; else `ValueError`. -/
def findTransactionsTable (h : Html) : Except String HtmlTable :=
  match h.tables.find? (fun t =>
      match t.caption with
      | some c => strContains (lowerStr c) "transaction"
      | none => false) with
  | some t => .ok t
  | none =>
    match h.tables.find? (·.hasTableClass) with
    | some t => .ok t
    | none => .error "Could not find transactions table in PTR HTML"

/-- A parsed trade dict as produced by `parse_ptr_trades_from_html`. -/
structure TradeRec where
  senator_name : String
  senator_first_name : String
  senator_last_name : String
  senator_display_name : String
  chamber : String
  report_id : Option String
  report_type : String
  report_format : Option String
  filing_date : SDate
  transaction_date : Option SDate
  owner : Option String
  ticker : String
  asset_name : Option String
  asset_type : Option String
  transaction_type : Option String
  transaction_type_raw : String
  amount_range_raw : Option String
  amount_min : Option ℚ
  amount_max : Option ℚ
  mid_point : Option ℚ
  comment : Option String
deriving DecidableEq, Repr

/-- Python `text or None` on a stripped cell text. -/
def optOfText (s : String) : Option String :=
  if s = "" then none else some s

/-- Ticker extraction from cell 3: text of the embedded link if present,
else the raw cell text or `None` when empty. -/
def tickerOf (tr : Tr) : Option String :=
  let td := tr.tds.getD 3 ⟨"", none⟩
  match td.link with
  | some l => some l
  | none => if td.text = "" then none else some td.text

/-- Build one trade dict from a row that passed the cell-count and
ticker filters (mirrors the body of the row loop). -/
def mkTrade (meta : ReportRecord) (tr : Tr) : TradeRec :=
  let td := fun (i : Nat) => tr.tds.getD i ⟨"", none⟩
  let transaction_date_raw := (td 1).text
  let owner := optOfText (td 2).text
  let ticker := (tickerOf tr).getD ""
  let asset_name := optOfText (td 4).text
  let asset_type := optOfText (td 5).text
  let raw_tx_type := (td 6).text
  let amount_range_raw := optOfText (td 7).text
  let comment_raw := (td 8).text
  let comment := if comment_raw = "--" ∨ comment_raw = "" then none else some comment_raw
  let transaction_date := pyStrptimeDate transaction_date_raw
  let amounts := parse_amount_range amount_range_raw
  let senator_first := meta.senator_first_name
  let senator_last := meta.senator_last_name
  { senator_name := pyStrip (senator_first ++ " " ++ senator_last)
    senator_first_name := senator_first
    senator_last_name := senator_last
    senator_display_name := meta.senator_display_name
    chamber := meta.chamber
    report_id := meta.report_id
    report_type := meta.report_type
    report_format := meta.report_format
    filing_date := meta.filing_date
    transaction_date := transaction_date
    owner := owner
    ticker := ticker
    asset_name := asset_name
    asset_type := asset_type
    transaction_type := normalize_transaction_type (some raw_tx_type)
    transaction_type_raw := raw_tx_type
    amount_range_raw := amount_range_raw
    amount_min := amounts.1
    amount_max := amounts.2.1
    mid_point := amounts.2.2
    comment := comment }

/-- The row loop of `parse_ptr_trades_from_html`: skip rows with fewer
than 9 cells, skip rows with a missing or placeholder ticker, emit one
trade dict per surviving row. -/
def parsePtrRows (meta : ReportRecord) : List Tr → List TradeRec
  | [] => []
  | tr :: rest =>
    if tr.tds.length < 9 then parsePtrRows meta rest
    else
      match tickerOf tr with
      | none => parsePtrRows meta rest
      | some ticker =>
        if ticker = "" ∨ ticker = "-" ∨ ticker = "--" then parsePtrRows meta rest
        else mkTrade meta tr :: parsePtrRows meta rest

/-- `parse_ptr_trades_from_html`: locate the transactions table (a
`ValueError` propagates), return `[]` when it has no `tbody`, else
parse its rows. -/
def parse_ptr_trades_from_html (h : Html) (meta : ReportRecord) :
    Except String (List TradeRec) :=
  match findTransactionsTable h with
  | .error e => .error e
  | .ok table =>
    match table.tbody with
    | none => .ok []
    | some trs => .ok (parsePtrRows meta trs)

/-- The landing/disclaimer-page marker check in `fetch_ptr_trades`
(`"Agreement" in html or "Prohibited" in html`). -/
def landingPageDetected (h : Html) : Bool :=
  strContains h.text "Agreement" || strContains h.text "Prohibited"

/-- `fetch_ptr_trades`, given the already-fetched response body: the
landing-page check only prints a debug line, so the result is whatever
the parser yields on the body. -/
def fetch_ptr_trades (h : Html) (meta : ReportRecord) :
    Except String (List TradeRec) :=
  parse_ptr_trades_from_html h meta

/-! ### `scraper/pipeline.py` — the per-report trade-fetch loop

`fetch_ptr_trades_for_reports` loops over reports calling
`fetch_ptr_trades` (a network fetch plus parse, abstracted here as the
`fetchOne` argument) and extends one accumulator list; there is no
try/except, so a raised error propagates out of the loop. -/

def fetch_ptr_trades_for_reports (fetchOne : ReportRecord → Except String (List TradeRec)) :
    List ReportRecord → Except String (List TradeRec)
  | [] => .ok []
  | r :: rs =>
    match fetchOne r with
    | .error e => .error e
    | .ok trades =>
      match fetch_ptr_trades_for_reports fetchOne rs with
      | .error e => .error e
      | .ok rest => .ok (trades ++ rest)

/-! ### `scraper/fetch.py` — paginated report listing

A listing source is the part of the search endpoint `fetch_all_reports`
observes: the row page returned for each `start` offset, and the
`recordsFiltered` total reported on the first page.  The embedding also
counts page requests (calls to `fetch_reports_page`).  The pagination
loop is written with an explicit fuel argument of `recordsFiltered + 1`:
every iteration either stops or appends at least one row while the loop
only continues when the accumulated count is below `recordsFiltered`,
so the fuel can never be exhausted before the loop stops on its own. -/

structure ListingSource (α : Type) where
  pages : Nat → List α
  recordsFiltered : Nat

/-- The `while len(data) < records_filtered` loop of `fetch_all_reports`;
returns the accumulated rows and the total number of page requests. -/
def fetchLoop (src : ListingSource α) (pageSize : Nat) :
    Nat → List α → Nat → Nat → List α × Nat
  | 0, data, _, reqs => (data, reqs)
  | fuel + 1, data, start, reqs =>
    if src.recordsFiltered ≤ data.length then (data, reqs)
    else
      let rows := src.pages start
      if rows.isEmpty then (data, reqs + 1)
      else fetchLoop src pageSize fuel (data ++ rows) (start + pageSize) (reqs + 1)

/-- `fetch_all_reports`: fetch page 0, stop if it already covers
`recordsFiltered`, else keep pulling pages at increasing offsets.
Result: (accumulated `data`, number of page requests made). -/
def fetch_all_reports (src : ListingSource α) (pageSize : Nat) : List α × Nat :=
  let data := src.pages 0
  if src.recordsFiltered ≤ data.length then (data, 1)
  else fetchLoop src pageSize (src.recordsFiltered + 1) data pageSize 1

/-! ### `db/upsert.py` — deduplicating upsert -/

/-- The natural-key tuple used by `upsert_trades` and the
`uq_trade_identity` constraint. -/
def tradeKey (t : TradeRec) :
    String × String × Option SDate × Option ℚ × Option ℚ :=
  (t.senator_name, t.ticker, t.transaction_date, t.amount_min, t.amount_max)

/-- `_trade_exists`: lookup by the identity fields. -/
def tradeExists (db : List TradeRec) (t : TradeRec) : Bool :=
  db.any (fun r => tradeKey r = tradeKey t)

/-- The loop of `upsert_trades`: `seen` is the in-batch key set, `db`
the session's table contents, `n` the inserted counter. -/
def upsertGo : List TradeRec → List (String × String × Option SDate × Option ℚ × Option ℚ) →
    List TradeRec → Nat → Nat × List TradeRec
  | [], _, db, n => (n, db)
  | t :: ts, seen, db, n =>
    if tradeKey t ∈ seen then upsertGo ts seen db n
    else if tradeExists db t then upsertGo ts (tradeKey t :: seen) db n
    else upsertGo ts (tradeKey t :: seen) (db ++ [t]) (n + 1)

/-- `upsert_trades`: returns the number of newly inserted rows and the
table contents after commit. -/
def upsert_trades (db : List TradeRec) (trades : List TradeRec) : Nat × List TradeRec :=
  upsertGo trades [] db 0

/-! ### `db/prices.py` — price cache

Calendar dates are plain day numbers here (only their ordering and
equality matter).  The yfinance download is abstracted as its result:
`none` for a raised exception, `some hist` for a returned daily-close
series in index order.  Each operation returns the price result, the
cache contents after the session flush, and whether an external fetch
was performed (the instrumentation the spec's call-count test relies
on). -/

structure PriceCacheEntry where
  ticker : String
  date : Nat
  price : ℚ
  last_updated : Nat
deriving DecidableEq, Repr

/-- Keep the later-dated of the running best and the next entry (the
`ORDER BY date DESC LIMIT 1` selection, expressed as a fold). -/
def pickLater (acc : Option PriceCacheEntry) (e : PriceCacheEntry) :
    Option PriceCacheEntry :=
  match acc with
  | none => some e
  | some b => if b.date < e.date then some e else acc

/-- The cache query of `get_price_on_or_before`: entries for `ticker`
dated `≤ target`, ordered by date descending, first row. -/
def cacheBest (cache : List PriceCacheEntry) (ticker : String) (target : Nat) :
    Option PriceCacheEntry :=
  (cache.filter (fun e => e.ticker = ticker ∧ e.date ≤ target)).foldl pickLater none

/-- The insert loop of `get_price_on_or_before`: add each downloaded
close unless an entry for `(ticker, date)` already exists. -/
def insertHist (ticker : String) (target : Nat) (cache : List PriceCacheEntry) :
    List (Nat × ℚ) → List PriceCacheEntry
  | [] => cache
  | (d, p) :: rest =>
    if cache.any (fun e => e.ticker = ticker ∧ e.date = d) then
      insertHist ticker target cache rest
    else
      insertHist ticker target
        (cache ++ [{ ticker := ticker, date := d, price := p, last_updated := target }]) rest

/-- `get_price_on_or_before`: cache first; on a miss download a window,
insert the closes, and re-query.  Result: (price, cache after, whether
an external fetch happened). -/
def get_price_on_or_before (cache : List PriceCacheEntry) (ticker : String)
    (target : Nat) (download : Option (List (Nat × ℚ))) :
    Option ℚ × List PriceCacheEntry × Bool :=
  match cacheBest cache ticker target with
  | some cached => (some cached.price, cache, false)
  | none =>
    match download with
    | none => (none, cache, true)
    | some hist =>
      if hist.isEmpty then (none, cache, true)
      else
        let cache' := insertHist ticker target cache hist
        ((cacheBest cache' ticker target).map (·.price), cache', true)

/-- Update the first cache entry matching `(ticker, date)` (the ORM
mutation of `existing` in `get_latest_price`). -/
def updateFirst (ticker : String) (d : Nat) (p : ℚ) (today : Nat) :
    List PriceCacheEntry → List PriceCacheEntry
  | [] => []
  | e :: es =>
    if e.ticker = ticker ∧ e.date = d then
      { e with price := p, last_updated := today } :: es
    else e :: updateFirst ticker d p today es

/-- `get_latest_price`: always downloads recent history (there is no
cache check before the fetch), then upserts the last close into the
cache and returns it; a failed or empty download yields `none`. -/
def get_latest_price (cache : List PriceCacheEntry) (ticker : String)
    (today : Nat) (download : Option (List (Nat × ℚ))) :
    Option ℚ × List PriceCacheEntry × Bool :=
  match download with
  | none => (none, cache, true)
  | some hist =>
    match hist.getLast? with
    | none => (none, cache, true)
    | some (lastDate, lastPrice) =>
      let cache' :=
        if cache.any (fun e => e.ticker = ticker ∧ e.date = lastDate) then
          updateFirst ticker lastDate lastPrice today cache
        else
          cache ++ [{ ticker := ticker, date := lastDate, price := lastPrice,
                      last_updated := today }]
      (some lastPrice, cache', true)

/-! ### Auxiliary definitions used by the statements -/

/-- Did an `Except` computation succeed? -/
def exceptOk : Except ε α → Bool
  | .ok _ => true
  | .error _ => false

/-- The filter a transactions-table row must pass to produce a trade:
at least 9 cells and a ticker that is neither missing nor one of the
placeholder tokens. -/
def goodTradeRow (tr : Tr) : Bool :=
  if tr.tds.length < 9 then false
  else
    match tickerOf tr with
    | none => false
    | some t => !(t = "" ∨ t = "-" ∨ t = "--")

/-- The duplicate-freedom of the `uq_price_cache_ticker_date` unique
constraint: no two entries share a `(ticker, date)` pair. -/
def CacheKeysDistinct (cache : List PriceCacheEntry) : Prop :=
  List.Pairwise (fun a b => ¬(a.ticker = b.ticker ∧ a.date = b.date)) cache

/-! ### Concrete sample values used by witnesses and counterexamples -/

/-- A well-formed listing row (5 fields, PTR link, valid date). -/
def goodReportRow : List String :=
  ["John", "Boozman", "Boozman, John (Senator)",
   "<a href=\"/search/view/ptr/abc123/\" target=\"_blank\">Periodic Transaction Report for 01/13/2026</a>",
   "01/13/2026"]

/-- A listing row whose link path lacks the `search/view/...` shape. -/
def plainPathRow : List String :=
  ["Jane", "Doe", "Doe, Jane (Senator)",
   "<a href=\"/foo/bar/\">extension request</a>",
   "12/13/2026"]

/-- The filing record `parse_report_row` yields on `goodReportRow`. -/
def recPTR : ReportRecord :=
  { senator_first_name := "John"
    senator_last_name := "Boozman"
    senator_display_name := "Boozman, John (Senator)"
    chamber := "Senate"
    report_type := "PTR"
    report_format := some "ptr"
    report_id := some "abc123"
    report_url := "https://efdsearch.senate.gov/search/view/ptr/abc123/"
    report_path := "/search/view/ptr/abc123/"
    report_title := "Periodic Transaction Report for 01/13/2026"
    filing_date := ⟨2026, 1, 13⟩
    raw_link_html := "<a href=\"/search/view/ptr/abc123/\" target=\"_blank\">Periodic Transaction Report for 01/13/2026</a>"
    is_ptr := true }

/-- The filing record `parse_report_row` yields on `plainPathRow`. -/
def recPlain : ReportRecord :=
  { senator_first_name := "Jane"
    senator_last_name := "Doe"
    senator_display_name := "Doe, Jane (Senator)"
    chamber := "Senate"
    report_type := "Extension"
    report_format := none
    report_id := none
    report_url := "https://efdsearch.senate.gov/foo/bar/"
    report_path := "/foo/bar/"
    report_title := "extension request"
    filing_date := ⟨2026, 12, 13⟩
    raw_link_html := "<a href=\"/foo/bar/\">extension request</a>"
    is_ptr := false }

/-- An HTTP-200 response body that is the disclaimer/landing page
(carries the marker text) and happens to contain a standard-class
table with an empty body, as bootstrap-styled portal pages do. -/
def landingHtml : Html :=
  { text := "Senate eFD Prohibited use Agreement page"
    tables := [{ caption := none, hasTableClass := true, tbody := some [] }] }

/-- A landing-page body with no tables at all. -/
def landingHtmlBare : Html :=
  { text := "Senate eFD Prohibited use Agreement page", tables := [] }

/-- A well-formed PTR detail page: a captioned transactions table whose
single body row has 9 cells and a linked ticker. -/
def tradesHtml : Html :=
  { text := "PTR detail page"
    tables := [{ caption := some "List of transactions added to this report"
                 hasTableClass := true
                 tbody := some [⟨[⟨"1", none⟩, ⟨"01/05/2026", none⟩, ⟨"Self", none⟩,
                   ⟨"", some "AAPL"⟩, ⟨"Apple Inc", none⟩, ⟨"Stock", none⟩,
                   ⟨"Sale (Full)", none⟩, ⟨"$1,001 - $15,000", none⟩, ⟨"--", none⟩]⟩] }] }

/-- The fake listing source of the spec's pagination test: full pages
of 100 rows until `recordsFiltered = 250` is exhausted. -/
def fakeSource : ListingSource Nat :=
  { pages := fun s =>
      if s = 0 then List.range 100
      else if s = 100 then (List.range 100).map (100 + ·)
      else if s = 200 then (List.range 50).map (200 + ·)
      else []
    recordsFiltered := 250 }

/-- A listing source whose pages hold one row each (well under the page
size) while reporting `recordsFiltered = 250`. -/
def oneRowSource : ListingSource Nat :=
  { pages := fun s => [s], recordsFiltered := 250 }

/-- A parsed trade record (natural key: Boozman / AAPL / 2026-01-05 /
1001–15000). -/
def tradeA : TradeRec :=
  { senator_name := "John Boozman"
    senator_first_name := "John"
    senator_last_name := "Boozman"
    senator_display_name := "Boozman, John (Senator)"
    chamber := "Senate"
    report_id := some "abc123"
    report_type := "PTR"
    report_format := some "ptr"
    filing_date := ⟨2026, 1, 13⟩
    transaction_date := some ⟨2026, 1, 5⟩
    owner := some "Self"
    ticker := "AAPL"
    asset_name := some "Apple Inc"
    asset_type := some "Stock"
    transaction_type := some "SELL"
    transaction_type_raw := "Sale (Full)"
    amount_range_raw := some "$1,001 - $15,000"
    amount_min := some 1001
    amount_max := some 15000
    mid_point := some (mkRat 16001 2)
    comment := none }

/-- Same natural key as `tradeA`, differing only in `comment`. -/
def tradeB : TradeRec :=
  { tradeA with comment := some "sold to diversify" }

/-- A price cache holding one entry for ticker `AAPL`. -/
def cacheA : List PriceCacheEntry :=
  [{ ticker := "AAPL", date := 50, price := 10, last_updated := 50 }]

/-! ## Bridge lemmas: the `mkRat` forms evaluate the source's arithmetic -/

/-- `decimalVal i f k` is the decimal value `i + f / 10 ^ k`. -/
theorem decimalVal_eq (i f k : Nat) :
    decimalVal i f k = (i : ℚ) + (f : ℚ) / 10 ^ k := by
  rw [decimalVal, Rat.mkRat_eq_div]
  push_cast
  field_simp

/-- `ratMidpoint l h` is `(l + h) / 2`, the source's midpoint formula. -/
theorem ratMidpoint_eq (l h : ℚ) : ratMidpoint l h = (l + h) / 2 := by
  have hl : (l.num : ℚ) = l * l.den := (div_eq_iff (by positivity)).1 (Rat.num_div_den l)
  have hh : (h.num : ℚ) = h * h.den := (div_eq_iff (by positivity)).1 (Rat.num_div_den h)
  rw [ratMidpoint, Rat.mkRat_eq_div]
  push_cast
  rw [div_eq_div_iff (by positivity) (by norm_num)]
  rw [hl, hh]; ring

/-- `lowerStr` maps only the empty string to the empty string. -/
theorem lowerStr_eq_empty {s : String} : lowerStr s = "" ↔ s = "" := by
  cases s with
  | mk data =>
    constructor
    · intro h
      have : data.map charLower = [] := by
        have := congrArg String.data h
        simpa [lowerStr, String.toList] using this
      simp only [List.map_eq_nil_iff] at this
      simp [this]
    · intro h
      have hd : data = [] := by
        have := congrArg String.data h
        simpa using this
      simp [lowerStr, String.toList, hd]


/-- A failed half in `parseRangeHalves` fails the whole triple. -/
theorem parseRangeHalves_none {lo hi : List Char}
    (h : (parseRangeHalves lo hi).1 = none) :
    parseRangeHalves lo hi = (none, none, none) := by
  unfold parseRangeHalves at h ⊢
  rcases h1 : pyFloat (cleanMoney (String.mk lo)) with _ | l <;>
    rcases h2 : pyFloat (cleanMoney (String.mk hi)) with _ | hv
  · rfl
  · rfl
  · rfl
  · rw [h1, h2] at h
    simp at h

/-! ## Claim C7 — amount-range normalizer -/

/-- Claim C7: the amount-range normalizer is total with failure signalled
as `(none, none, none)` (a `none` minimum only ever occurs in the full
failure triple), and satisfies the four literal cases:
`"$1,001 - $15,000" ↦ (1001, 15000, 8000.5)`,
`"Over $1,000,000" ↦ (1000000, none, none)`,
`"$5,000" ↦ (5000, 5000, 5000)` and `"garbage" ↦ (none, none, none)`. -/
theorem amount_range_normalizer_spec :
    parse_amount_range (some "$1,001 - $15,000") =
      (some 1001, some 15000, some (8000.5 : ℚ))
    ∧ parse_amount_range (some "Over $1,000,000") = (some 1000000, none, none)
    ∧ parse_amount_range (some "$5,000") = (some 5000, some 5000, some 5000)
    ∧ parse_amount_range (some "garbage") = (none, none, none)
    ∧ ∀ s : String, (parse_amount_range (some s)).1 = none →
        parse_amount_range (some s) = (none, none, none) := by
  refine ⟨?_, by decide, by decide, by decide, ?_⟩
  · have h : parse_amount_range (some "$1,001 - $15,000") =
        (some 1001, some 15000, some (ratMidpoint 1001 15000)) := by decide
    rw [h, ratMidpoint_eq]
    norm_num
  · intro s h
    by_cases h0 : s = ""
    · subst h0; decide
    · simp only [parse_amount_range] at h ⊢
      simp only [if_neg h0] at h ⊢
      by_cases h1 : strStarts (lowerStr (pyStrip s)) "over" = true
      · simp only [h1, if_true] at h ⊢
        cases hf : pyFloat (cleanMoney (String.mk ((pyStrip s).toList.drop 4))) with
        | none => simp [hf]
        | some v => rw [hf] at h; simp at h
      · simp only [if_neg h1] at h ⊢
        by_cases h2 : strContains (pyStrip s) "-" = true
        · simp only [h2, if_true] at h ⊢
          cases hsp : splitFirst '-' (pyStrip s).toList with
          | none => rfl
          | some q =>
            rw [hsp] at h
            obtain ⟨lo, hi⟩ := q
            exact parseRangeHalves_none h
        · rw [Bool.not_eq_true] at h2
          simp only [h2, if_false] at h ⊢
          cases hf : pyFloat (cleanMoney (pyStrip s)) with
          | none => simp [hf]
          | some v => rw [hf] at h; simp at h

/-- Witness for C7: the failure-shape clause applied at the concrete
input `"garbage"`. -/
theorem amount_range_normalizer_spec_witness :
    parse_amount_range (some "n/a") = (none, none, none) :=
  amount_range_normalizer_spec.2.2.2.2 "n/a" (by decide)

/-! ## Claim C9 — transaction-type normalizer -/

/-- Claim C9: transaction-type normalization matches case-insensitively
on the stripped, lower-cased text — contains "purchase" or equals "p"
maps to BUY; else contains "sale" or equals "s" maps to SELL; else
contains "exchange" maps to EXCHANGE; any other (non-empty) text passes
through as the stripped original — and satisfies the literal cases
`"Sale (Partial)" ↦ "SELL"`, `"Purchase" ↦ "BUY"`,
`"Exchange" ↦ "EXCHANGE"`, `"Gift" ↦ "Gift"`. -/
theorem transaction_type_normalizer_spec :
    normalize_transaction_type (some "Sale (Partial)") = some "SELL"
    ∧ normalize_transaction_type (some "Purchase") = some "BUY"
    ∧ normalize_transaction_type (some "Exchange") = some "EXCHANGE"
    ∧ normalize_transaction_type (some "Gift") = some "Gift"
    ∧ ∀ raw : String, pyStrip raw ≠ "" →
        ((strContains (lowerStr (pyStrip raw)) "purchase" = true ∨
            lowerStr (pyStrip raw) = "p") →
          normalize_transaction_type (some raw) = some "BUY")
        ∧ (¬(strContains (lowerStr (pyStrip raw)) "purchase" = true ∨
              lowerStr (pyStrip raw) = "p") →
           (strContains (lowerStr (pyStrip raw)) "sale" = true ∨
              lowerStr (pyStrip raw) = "s") →
          normalize_transaction_type (some raw) = some "SELL")
        ∧ (¬(strContains (lowerStr (pyStrip raw)) "purchase" = true ∨
              lowerStr (pyStrip raw) = "p") →
           ¬(strContains (lowerStr (pyStrip raw)) "sale" = true ∨
              lowerStr (pyStrip raw) = "s") →
           strContains (lowerStr (pyStrip raw)) "exchange" = true →
          normalize_transaction_type (some raw) = some "EXCHANGE")
        ∧ (¬(strContains (lowerStr (pyStrip raw)) "purchase" = true ∨
              lowerStr (pyStrip raw) = "p") →
           ¬(strContains (lowerStr (pyStrip raw)) "sale" = true ∨
              lowerStr (pyStrip raw) = "s") →
           ¬(strContains (lowerStr (pyStrip raw)) "exchange" = true) →
          normalize_transaction_type (some raw) = some (pyStrip raw)) := by
  refine ⟨by decide, by decide, by decide, by decide, ?_⟩
  intro raw hne
  have htext : ¬(lowerStr (pyStrip raw) = "") := fun h => hne (lowerStr_eq_empty.mp h)
  refine ⟨?_, ?_, ?_, ?_⟩
  · intro hbuy
    have hc : (strContains (lowerStr (pyStrip raw)) "purchase" ||
        decide (lowerStr (pyStrip raw) = "p")) = true := by
      rcases hbuy with h | h <;> simp [h]
    simp [normalize_transaction_type, htext, hc]
  · intro hnb hsell
    push_neg at hnb
    have hc : (strContains (lowerStr (pyStrip raw)) "purchase" ||
        decide (lowerStr (pyStrip raw) = "p")) = false := by
      simp [hnb.1, hnb.2]
    have hc2 : (strContains (lowerStr (pyStrip raw)) "sale" ||
        decide (lowerStr (pyStrip raw) = "s")) = true := by
      rcases hsell with h | h <;> simp [h]
    simp [normalize_transaction_type, htext, hc, hc2]
  · intro hnb hns hex
    push_neg at hnb hns
    have hc : (strContains (lowerStr (pyStrip raw)) "purchase" ||
        decide (lowerStr (pyStrip raw) = "p")) = false := by
      simp [hnb.1, hnb.2]
    have hc2 : (strContains (lowerStr (pyStrip raw)) "sale" ||
        decide (lowerStr (pyStrip raw) = "s")) = false := by
      simp [hns.1, hns.2]
    simp [normalize_transaction_type, htext, hc, hc2, hex]
  · intro hnb hns hne2
    push_neg at hnb hns
    have hc : (strContains (lowerStr (pyStrip raw)) "purchase" ||
        decide (lowerStr (pyStrip raw) = "p")) = false := by
      simp [hnb.1, hnb.2]
    have hc2 : (strContains (lowerStr (pyStrip raw)) "sale" ||
        decide (lowerStr (pyStrip raw) = "s")) = false := by
      simp [hns.1, hns.2]
    have hc3 : strContains (lowerStr (pyStrip raw)) "exchange" = false := by
      simpa using hne2
    simp [normalize_transaction_type, htext, hc, hc2, hc3]

/-- Witness for C9: the general clauses applied at the concrete inputs
`"P"` (case-insensitive equality with "p") and `"Gift Card"`
(unmapped passthrough). -/
theorem transaction_type_normalizer_spec_witness :
    normalize_transaction_type (some "P") = some "BUY"
    ∧ normalize_transaction_type (some "Gift Card") = some "Gift Card" :=
  ⟨(transaction_type_normalizer_spec.2.2.2.2 "P" (by decide)).1 (by decide),
   (transaction_type_normalizer_spec.2.2.2.2 "Gift Card" (by decide)).2.2.2
     (by decide) (by decide) (by decide)⟩

/-! ## Claim C8 — trade-row filtering -/

/-- Claim C8: the trade-row parser keeps exactly the body rows with at
least 9 cells and a non-placeholder ticker, producing one trade record
per kept row (rows with fewer cells, or an empty/`"-"`/`"--"` ticker,
are absent from the output). -/
theorem trade_row_filtering_spec :
    ∀ (meta : ReportRecord) (trs : List Tr),
      parsePtrRows meta trs = (trs.filter goodTradeRow).map (mkTrade meta)
      ∧ (parsePtrRows meta trs).length = (trs.filter goodTradeRow).length := by
  intro meta trs
  have hmain : parsePtrRows meta trs = (trs.filter goodTradeRow).map (mkTrade meta) := by
    induction trs with
    | nil => rfl
    | cons tr rest ih =>
      by_cases h9 : tr.tds.length < 9
      · simp [parsePtrRows, goodTradeRow, h9, ih, List.filter_cons]
      · cases htk : tickerOf tr with
        | none =>
          simp [parsePtrRows, goodTradeRow, h9, htk, ih, List.filter_cons]
        | some t =>
          by_cases hpl : (t = "" ∨ t = "-" ∨ t = "--")
          · simp [parsePtrRows, goodTradeRow, h9, htk, hpl, ih, List.filter_cons]
          · simp [parsePtrRows, goodTradeRow, h9, htk, hpl, ih, List.filter_cons]
  exact ⟨hmain, by rw [hmain, List.length_map]⟩

/-! ## Claim C10 — report-row parser error contract -/

/-- Claim C10: `parse_report_row` fails exactly when the row has fewer
than 5 fields, its link markup has no anchor with a (truthy) href, or
the filing date is not `MM/DD/YYYY`; a link path without the
`search/view/format/id` shape leaves format and id null without
failing; and the returned record has `is_ptr` true iff the link text
classifies as PTR. -/
theorem report_row_parser_contract :
    ∀ row : List String,
      (exceptOk (parse_report_row row) = true ↔
        (5 ≤ row.length ∧ rowLinkOk (row.getD 3 "") = true ∧
          pyStrptimeDate (row.getD 4 "") ≠ none))
      ∧ (∀ r0, parse_report_row row = .ok r0 →
          (pathShapeParts r0.report_path = none →
            r0.report_format = none ∧ r0.report_id = none)
          ∧ (r0.is_ptr = true ↔ classifyReportType r0.report_title = "PTR")) := by
  intro row
  by_cases h5 : row.length < 5
  · constructor
    · simp [parse_report_row, h5, exceptOk, -List.getD_eq_getElem?_getD]
    · intro r0 hr
      simp [parse_report_row, h5, -List.getD_eq_getElem?_getD] at hr
  · cases han : soupFindAnchor (row.getD 3 "") with
    | none =>
      constructor
      · simp [parse_report_row, h5, han, exceptOk, rowLinkOk, -List.getD_eq_getElem?_getD]
      · intro r0 hr
        simp [parse_report_row, h5, han, -List.getD_eq_getElem?_getD] at hr
    | some a =>
      by_cases hh : a.href.getD "" = ""
      · constructor
        · simp [parse_report_row, h5, han, hh, exceptOk, rowLinkOk, -List.getD_eq_getElem?_getD]
        · intro r0 hr
          simp [parse_report_row, h5, han, hh, -List.getD_eq_getElem?_getD] at hr
      · cases hd : pyStrptimeDate (row.getD 4 "") with
        | none =>
          constructor
          · simp [parse_report_row, h5, han, hh, hd, exceptOk, rowLinkOk, -List.getD_eq_getElem?_getD]
          · intro r0 hr
            simp [parse_report_row, h5, han, hh, hd, -List.getD_eq_getElem?_getD] at hr
        | some d =>
          constructor
          · simp [parse_report_row, h5, han, hh, hd, exceptOk, rowLinkOk, -List.getD_eq_getElem?_getD]
            omega
          · intro r0 hr
            simp only [parse_report_row, if_neg h5, han, hh, if_false, hd] at hr
            have hrec := (Except.ok.inj hr).symm
            subst hrec
            constructor
            · intro hshape
              simp only [hshape]
              simp
            · simp

/-- Witness for C10: the contract applied to a concrete well-formed PTR
row (parses successfully; `is_ptr` agrees with the title
classification) and to a concrete row whose path lacks the
`search/view` shape (format and id are null). -/
theorem report_row_parser_contract_witness :
    exceptOk (parse_report_row goodReportRow) = true
    ∧ (recPlain.report_format = none ∧ recPlain.report_id = none)
    ∧ (recPTR.is_ptr = true ↔ classifyReportType recPTR.report_title = "PTR") :=
  ⟨(report_row_parser_contract goodReportRow).1.mpr (by decide),
   ((report_row_parser_contract plainPathRow).2 recPlain rfl).1 (by decide),
   ((report_row_parser_contract goodReportRow).2 recPTR rfl).2⟩

/-! ## Claim C2 — error propagation in the batch -/

/-- Counterexample to C2, refuting both halves at concrete inputs: a
batch containing one malformed listing row (the empty row) followed by
a perfectly parseable row does not yield the remaining row — the whole
listing parse fails; and a collection of two filings whose first detail
page has no recognizable table (while the second parses fine on its
own) does not yield the second filing's trades — the whole trade loop
fails. -/
theorem parsing_errors_not_row_scoped_cex :
    (exceptOk (parse_report_rows [[], goodReportRow]) = false
      ∧ exceptOk (parse_report_row goodReportRow) = true)
    ∧ (exceptOk (fetch_ptr_trades_for_reports
          (fun r => fetch_ptr_trades
            (if r.report_id = some "abc123" then tradesHtml else landingHtmlBare) r)
          [recPlain, recPTR]) = false
      ∧ exceptOk (fetch_ptr_trades tradesHtml recPTR) = true) := by
  exact ⟨⟨by decide, by decide⟩, by decide, by decide⟩

/-- Claim C2 (amended): parsing-level errors are not row/filing-scoped —
`parse_report_rows` has no try/except, so one failing listing row
aborts the whole listing parse, and `fetch_ptr_trades_for_reports`
likewise propagates the first failing filing and aborts the batch:
each batch succeeds exactly when every one of its rows (filings)
parses. -/
theorem parsing_errors_abort_batch :
    (∀ (rows : List (List String)) (row : List String), row ∈ rows →
        exceptOk (parse_report_row row) = false →
        exceptOk (parse_report_rows rows) = false)
    ∧ (∀ (fetchOne : ReportRecord → Except String (List TradeRec))
        (reports : List ReportRecord) (r0 : ReportRecord), r0 ∈ reports →
        exceptOk (fetchOne r0) = false →
        exceptOk (fetch_ptr_trades_for_reports fetchOne reports) = false)
    ∧ (∀ rows : List (List String),
        exceptOk (parse_report_rows rows) = true ↔
          ∀ r ∈ rows, exceptOk (parse_report_row r) = true)
    ∧ (∀ (fetchOne : ReportRecord → Except String (List TradeRec))
        (reports : List ReportRecord),
        exceptOk (fetch_ptr_trades_for_reports fetchOne reports) = true ↔
          ∀ r0 ∈ reports, exceptOk (fetchOne r0) = true) := by
  refine ⟨?_, ?_, ?_, ?_⟩
  · intro rows
    induction rows with
    | nil => intro row hmem _; simp at hmem
    | cons r rs ih =>
      intro row hmem hbad
      rcases List.mem_cons.mp hmem with rfl | hmem'
      · cases hr : parse_report_row row with
        | error e => simp [parse_report_rows, hr, Except.bind, exceptOk]
        | ok v => rw [hr] at hbad; simp [exceptOk] at hbad
      · cases hr : parse_report_row r with
        | error e => simp [parse_report_rows, hr, Except.bind, exceptOk]
        | ok v =>
          have htail := ih row hmem' hbad
          cases hrs : parse_report_rows rs with
          | error e => simp [parse_report_rows, hr, hrs, Except.bind, exceptOk]
          | ok l => rw [hrs] at htail; simp [exceptOk] at htail
  · intro fetchOne reports
    induction reports with
    | nil => intro r0 hmem _; simp at hmem
    | cons r rs ih =>
      intro r0 hmem hbad
      rcases List.mem_cons.mp hmem with rfl | hmem'
      · cases hr : fetchOne r0 with
        | error e => simp [fetch_ptr_trades_for_reports, hr, Except.bind, exceptOk]
        | ok v => rw [hr] at hbad; simp [exceptOk] at hbad
      · cases hr : fetchOne r with
        | error e => simp [fetch_ptr_trades_for_reports, hr, Except.bind, exceptOk]
        | ok v =>
          have htail := ih r0 hmem' hbad
          cases hrs : fetch_ptr_trades_for_reports fetchOne rs with
          | error e => simp [fetch_ptr_trades_for_reports, hr, hrs, Except.bind, exceptOk]
          | ok l => rw [hrs] at htail; simp [exceptOk] at htail
  · intro rows
    induction rows with
    | nil => simp [parse_report_rows, exceptOk]
    | cons r rs ih =>
      cases hr : parse_report_row r with
      | error e =>
        simp only [parse_report_rows, hr, exceptOk]
        constructor
        · intro h; simp at h
        · intro h
          have hhead := h r (List.mem_cons_self _ _)
          rw [hr] at hhead
          simp [exceptOk] at hhead
      | ok v =>
        cases hrs : parse_report_rows rs with
        | error e =>
          simp only [parse_report_rows, hr, hrs, exceptOk]
          constructor
          · intro h; simp at h
          · intro h
            have hall := ih.mpr (fun r' hr' => h r' (List.mem_cons_of_mem _ hr'))
            rw [hrs] at hall
            simp [exceptOk] at hall
        | ok l =>
          simp only [parse_report_rows, hr, hrs, exceptOk]
          constructor
          · intro _ r' hr'
            rcases List.mem_cons.mp hr' with rfl | hm
            · rw [hr]
            · exact ih.mp (by rw [hrs]; rfl) r' hm
          · intro _; trivial
  · intro fetchOne reports
    induction reports with
    | nil => simp [fetch_ptr_trades_for_reports, exceptOk]
    | cons r rs ih =>
      cases hr : fetchOne r with
      | error e =>
        simp only [fetch_ptr_trades_for_reports, hr, exceptOk]
        constructor
        · intro h; simp at h
        · intro h
          have hhead := h r (List.mem_cons_self _ _)
          rw [hr] at hhead
          simp [exceptOk] at hhead
      | ok v =>
        cases hrs : fetch_ptr_trades_for_reports fetchOne rs with
        | error e =>
          simp only [fetch_ptr_trades_for_reports, hr, hrs, exceptOk]
          constructor
          · intro h; simp at h
          · intro h
            have hall := ih.mpr (fun r' hr' => h r' (List.mem_cons_of_mem _ hr'))
            rw [hrs] at hall
            simp [exceptOk] at hall
        | ok l =>
          simp only [fetch_ptr_trades_for_reports, hr, hrs, exceptOk]
          constructor
          · intro _ r' hr'
            rcases List.mem_cons.mp hr' with rfl | hm
            · rw [hr]
            · exact ih.mp (by rw [hrs]; rfl) r' hm
          · intro _; trivial

/-- Witness for C2 (amended): a batch consisting of one malformed row
fails, a one-report batch whose detail fetch raises fails, and a batch
of one well-formed row succeeds. -/
theorem parsing_errors_abort_batch_witness :
    exceptOk (parse_report_rows [[]]) = false
    ∧ exceptOk (fetch_ptr_trades_for_reports
        (fun _ => .error "table not found") [recPTR]) = false
    ∧ exceptOk (parse_report_rows [goodReportRow]) = true :=
  ⟨parsing_errors_abort_batch.1 [[]] [] (by simp) (by decide),
   parsing_errors_abort_batch.2.1 (fun _ => .error "table not found") [recPTR] recPTR
     (by simp) rfl,
   (parsing_errors_abort_batch.2.2.1 [goodReportRow]).mpr (by decide)⟩

/-! ## Claim C3 — silent landing-page redirect detection -/

/-- Claim C3 (evaluation at the failing input): a detail response whose
body carries the disclaimer marker is detected by the marker check, yet
`fetch_ptr_trades` still returns success with zero transactions when
the landing markup contains a standard-class table — the detection
never turns into a failure.  Only a landing body with no table at all
fails, and then as the generic table-not-found error. -/
theorem landing_page_silent_success :
    landingPageDetected landingHtml = true
    ∧ fetch_ptr_trades landingHtml recPTR = .ok []
    ∧ exceptOk (fetch_ptr_trades landingHtmlBare recPTR) = false := by
  refine ⟨by decide, rfl, by decide⟩

/-! ## Claim C1 — upsert idempotence and in-batch dedup -/

/-- The inserted counter advances exactly with the table length. -/
theorem upsertGo_count (ts : List TradeRec) :
    ∀ seen db n, (upsertGo ts seen db n).2.length + n =
      (upsertGo ts seen db n).1 + db.length := by
  induction ts with
  | nil => intro seen db n; simp [upsertGo]; omega
  | cons t ts ih =>
    intro seen db n
    by_cases h1 : tradeKey t ∈ seen
    · simp only [upsertGo, if_pos h1]
      exact ih seen db n
    · by_cases h2 : tradeExists db t = true
      · simp only [upsertGo, if_neg h1, if_pos h2]
        exact ih (tradeKey t :: seen) db n
      · simp only [upsertGo, if_neg h1, if_neg h2]
        have := ih (tradeKey t :: seen) (db ++ [t]) (n + 1)
        simp [List.length_append] at this ⊢
        omega

/-- The table only grows during an upsert run. -/
theorem upsertGo_monotone (ts : List TradeRec) :
    ∀ seen db n, ∃ ext, (upsertGo ts seen db n).2 = db ++ ext := by
  induction ts with
  | nil => intro seen db n; exact ⟨[], by simp [upsertGo]⟩
  | cons t ts ih =>
    intro seen db n
    by_cases h1 : tradeKey t ∈ seen
    · simpa only [upsertGo, if_pos h1] using ih seen db n
    · by_cases h2 : tradeExists db t = true
      · simpa only [upsertGo, if_neg h1, if_pos h2] using ih (tradeKey t :: seen) db n
      · simp only [upsertGo, if_neg h1, if_neg h2]
        obtain ⟨ext, he⟩ := ih (tradeKey t :: seen) (db ++ [t]) (n + 1)
        exact ⟨t :: ext, by rw [he, List.append_assoc]; rfl⟩

/-- A `tradeExists` miss means no stored row carries the key. -/
theorem tradeExists_false_iff (db : List TradeRec) (t : TradeRec) :
    tradeExists db t = false ↔ tradeKey t ∉ db.map tradeKey := by
  simp [tradeExists, List.any_eq_true, List.mem_map]

/-- Upserting preserves key-uniqueness of the stored table. -/
theorem upsertGo_nodup (ts : List TradeRec) :
    ∀ seen db n, (db.map tradeKey).Nodup →
      ((upsertGo ts seen db n).2.map tradeKey).Nodup := by
  induction ts with
  | nil => intro seen db n h; simpa [upsertGo] using h
  | cons t ts ih =>
    intro seen db n h
    by_cases h1 : tradeKey t ∈ seen
    · simpa only [upsertGo, if_pos h1] using ih seen db n h
    · by_cases h2 : tradeExists db t = true
      · simpa only [upsertGo, if_neg h1, if_pos h2] using ih (tradeKey t :: seen) db n h
      · simp only [upsertGo, if_neg h1, if_neg h2]
        apply ih (tradeKey t :: seen) (db ++ [t]) (n + 1)
        have hnot : tradeKey t ∉ db.map tradeKey :=
          (tradeExists_false_iff db t).mp (by simpa using h2)
        simp [List.nodup_append, h, hnot]

/-- Every processed input's key ends up in the final table, provided
every already-seen key is already stored. -/
theorem upsertGo_covers (ts : List TradeRec) :
    ∀ seen db n, (∀ k ∈ seen, k ∈ db.map tradeKey) →
      ∀ t ∈ ts, tradeKey t ∈ (upsertGo ts seen db n).2.map tradeKey := by
  induction ts with
  | nil => intro seen db n _ t hmem; simp at hmem
  | cons t ts ih =>
    intro seen db n hseen t' hmem
    have hmono : ∀ seen1 db1 n1, (db1.map tradeKey) ⊆
        ((upsertGo ts seen1 db1 n1).2.map tradeKey) := by
      intro seen1 db1 n1
      obtain ⟨ext, he⟩ := upsertGo_monotone ts seen1 db1 n1
      rw [he, List.map_append]
      exact List.subset_append_left _ _
    rcases List.mem_cons.mp hmem with rfl | hmem'
    · by_cases h1 : tradeKey t' ∈ seen
      · simp only [upsertGo, if_pos h1]
        exact hmono seen db n (hseen _ h1)
      · by_cases h2 : tradeExists db t' = true
        · simp only [upsertGo, if_neg h1, if_pos h2]
          apply hmono
          simp only [tradeExists, List.any_eq_true] at h2
          obtain ⟨r, hr, hk⟩ := h2
          simp only [decide_eq_true_eq] at hk
          exact List.mem_map.mpr ⟨r, hr, hk⟩
        · simp only [upsertGo, if_neg h1, if_neg h2]
          apply hmono
          simp [List.map_append]
    · by_cases h1 : tradeKey t ∈ seen
      · simp only [upsertGo, if_pos h1]
        exact ih seen db n hseen t' hmem'
      · by_cases h2 : tradeExists db t = true
        · simp only [upsertGo, if_neg h1, if_pos h2]
          apply ih (tradeKey t :: seen) db n _ t' hmem'
          intro k hk
          rcases List.mem_cons.mp hk with rfl | hk'
          · simp only [tradeExists, List.any_eq_true] at h2
            obtain ⟨r, hr, hkey⟩ := h2
            simp only [decide_eq_true_eq] at hkey
            exact List.mem_map.mpr ⟨r, hr, hkey⟩
          · exact hseen _ hk'
        · simp only [upsertGo, if_neg h1, if_neg h2]
          apply ih (tradeKey t :: seen) (db ++ [t]) (n + 1) _ t' hmem'
          intro k hk
          rcases List.mem_cons.mp hk with rfl | hk'
          · simp [List.map_append]
          · rw [List.map_append]
            exact List.mem_append_left _ (hseen _ hk')

/-- Every stored row came from the prior table or the input batch. -/
theorem upsertGo_from (ts : List TradeRec) :
    ∀ seen db n, ∀ r ∈ (upsertGo ts seen db n).2, r ∈ db ∨ r ∈ ts := by
  induction ts with
  | nil => intro seen db n r hr; simp [upsertGo] at hr; exact Or.inl hr
  | cons t ts ih =>
    intro seen db n r hr
    by_cases h1 : tradeKey t ∈ seen
    · rw [upsertGo, if_pos h1] at hr
      rcases ih seen db n r hr with h | h
      · exact Or.inl h
      · exact Or.inr (List.mem_cons_of_mem _ h)
    · by_cases h2 : tradeExists db t = true
      · rw [upsertGo, if_neg h1, if_pos h2] at hr
        rcases ih (tradeKey t :: seen) db n r hr with h | h
        · exact Or.inl h
        · exact Or.inr (List.mem_cons_of_mem _ h)
      · rw [upsertGo, if_neg h1, if_neg h2] at hr
        rcases ih (tradeKey t :: seen) (db ++ [t]) (n + 1) r hr with h | h
        · rcases List.mem_append.mp h with h' | h'
          · exact Or.inl h'
          · simp at h'
            exact Or.inr (by simp [h'])
        · exact Or.inr (List.mem_cons_of_mem _ h)

/-- A run over records that all already exist inserts nothing and
leaves the table unchanged. -/
theorem upsertGo_skip_all (ts : List TradeRec) :
    ∀ seen db n, (∀ t ∈ ts, tradeExists db t = true) →
      upsertGo ts seen db n = (n, db) := by
  induction ts with
  | nil => intro seen db n _; rfl
  | cons t ts ih =>
    intro seen db n hall
    by_cases h1 : tradeKey t ∈ seen
    · rw [upsertGo, if_pos h1]
      exact ih seen db n (fun t' ht' => hall t' (List.mem_cons_of_mem _ ht'))
    · rw [upsertGo, if_neg h1, if_pos (hall t (List.mem_cons_self _ _))]
      exact ih (tradeKey t :: seen) db n (fun t' ht' => hall t' (List.mem_cons_of_mem _ ht'))

/-- Claim C1: on an empty store, `upsert_trades` inserts exactly one row
per distinct natural key of the batch and returns that count; an
immediately repeated call with the identical batch against the
resulting store inserts zero rows; and a batch of two records equal on
the natural key but differing only in `comment` inserts exactly one
row. -/
theorem upsert_idempotence_and_dedup :
    (∀ ts : List TradeRec,
      (upsert_trades [] ts).1 = (upsert_trades [] ts).2.length
      ∧ ((upsert_trades [] ts).2.map tradeKey).Nodup
      ∧ (∀ t ∈ ts, tradeKey t ∈ (upsert_trades [] ts).2.map tradeKey)
      ∧ (∀ r ∈ (upsert_trades [] ts).2, r ∈ ts)
      ∧ (upsert_trades [] ts).1 = ((ts.map tradeKey).dedup).length)
    ∧ (∀ db ts : List TradeRec,
        upsert_trades (upsert_trades db ts).2 ts = (0, (upsert_trades db ts).2))
    ∧ (upsert_trades [] [tradeA, tradeB]).1 = 1 := by
  refine ⟨?_, ?_, by decide⟩
  · intro ts
    have hcount : (upsert_trades [] ts).1 = (upsert_trades [] ts).2.length := by
      have := upsertGo_count ts [] [] 0
      simp [upsert_trades] at this ⊢
      omega
    have hnodup : ((upsert_trades [] ts).2.map tradeKey).Nodup :=
      upsertGo_nodup ts [] [] 0 (by simp)
    have hcov : ∀ t ∈ ts, tradeKey t ∈ (upsert_trades [] ts).2.map tradeKey :=
      upsertGo_covers ts [] [] 0 (by simp)
    have hfrom : ∀ r ∈ (upsert_trades [] ts).2, r ∈ ts := by
      intro r hr
      rcases upsertGo_from ts [] [] 0 r hr with h | h
      · simp at h
      · exact h
    refine ⟨hcount, hnodup, hcov, hfrom, ?_⟩
    have hmemiff : ∀ k, k ∈ (upsert_trades [] ts).2.map tradeKey ↔ k ∈ ts.map tradeKey := by
      intro k
      constructor
      · intro hk
        obtain ⟨r, hr, rfl⟩ := List.mem_map.mp hk
        exact List.mem_map.mpr ⟨r, hfrom r hr, rfl⟩
      · intro hk
        obtain ⟨t, ht, rfl⟩ := List.mem_map.mp hk
        exact hcov t ht
    have hfin : ((upsert_trades [] ts).2.map tradeKey).toFinset =
        (ts.map tradeKey).toFinset := by
      apply Finset.ext
      intro k
      simp only [List.mem_toFinset]
      exact hmemiff k
    calc (upsert_trades [] ts).1
        = (upsert_trades [] ts).2.length := hcount
      _ = ((upsert_trades [] ts).2.map tradeKey).length := (List.length_map _ _).symm
      _ = ((upsert_trades [] ts).2.map tradeKey).dedup.length := by
            rw [List.dedup_eq_self.mpr hnodup]
      _ = ((upsert_trades [] ts).2.map tradeKey).toFinset.card :=
            (List.card_toFinset _).symm
      _ = ((ts.map tradeKey).toFinset).card := by rw [hfin]
      _ = ((ts.map tradeKey).dedup).length := List.card_toFinset _
  · intro db ts
    apply upsertGo_skip_all
    intro t ht
    have hk := upsertGo_covers ts [] db 0 (by simp) t ht
    simp only [tradeExists, List.any_eq_true]
    obtain ⟨r, hr, hkey⟩ := List.mem_map.mp hk
    exact ⟨r, hr, by simp [hkey]⟩

/-- Witness for C1: the comment-differing pair plus an in-batch repeat
still inserts one row; re-running the two-record batch against the
resulting store inserts zero rows; the natural key of the batch is
stored. -/
theorem upsert_idempotence_and_dedup_witness :
    (upsert_trades [] [tradeA, tradeB, tradeA]).1 = 1
    ∧ upsert_trades (upsert_trades [] [tradeA, tradeB]).2 [tradeA, tradeB] =
        (0, (upsert_trades [] [tradeA, tradeB]).2)
    ∧ tradeKey tradeA ∈ (upsert_trades [] [tradeA, tradeB]).2.map tradeKey :=
  ⟨(upsert_idempotence_and_dedup.1 [tradeA, tradeB, tradeA]).2.2.2.2.trans (by decide),
   upsert_idempotence_and_dedup.2.1 [] [tradeA, tradeB],
   (upsert_idempotence_and_dedup.1 [tradeA, tradeB]).2.2.1 tradeA (by simp)⟩

/-! ## Claim C4 — pagination -/

/-- The pagination loop stops as soon as the accumulated count covers
`recordsFiltered`, whatever fuel remains. -/
theorem fetchLoop_of_ge {α : Type} (src : ListingSource α) (pageSize : Nat)
    (fuel : Nat) {data : List α} (start reqs : Nat)
    (h : src.recordsFiltered ≤ data.length) :
    fetchLoop src pageSize fuel data start reqs = (data, reqs) := by
  cases fuel with
  | zero => rfl
  | succ f => rw [fetchLoop, if_pos h]

/-- One iteration of the pagination loop on a non-empty page. -/
theorem fetchLoop_step {α : Type} (src : ListingSource α) (pageSize : Nat)
    (f : Nat) {data : List α} {start : Nat} (reqs : Nat)
    (h1 : data.length < src.recordsFiltered) (h2 : src.pages start ≠ []) :
    fetchLoop src pageSize (f + 1) data start reqs =
      fetchLoop src pageSize f (data ++ src.pages start) (start + pageSize) (reqs + 1) := by
  have hrows : (src.pages start).isEmpty = false := by
    cases hp : src.pages start with
    | nil => exact absurd hp h2
    | cons a l => rfl
  simp only [fetchLoop, if_neg (Nat.not_le.mpr h1), hrows, Bool.false_eq_true, if_false]

/-- An empty page ends the pagination loop after that request. -/
theorem fetchLoop_empty {α : Type} (src : ListingSource α) (pageSize : Nat)
    (f : Nat) {data : List α} {start : Nat} (reqs : Nat)
    (h1 : data.length < src.recordsFiltered) (h2 : src.pages start = []) :
    fetchLoop src pageSize (f + 1) data start reqs = (data, reqs + 1) := by
  simp only [fetchLoop, if_neg (Nat.not_le.mpr h1), h2, List.isEmpty_nil, if_true]

/-- Stop condition of the pagination loop: it ends either because the
accumulated rows cover `recordsFiltered`, or because the last page it
requested (at offset `pageSize * (requests - 1)`) was empty. -/
theorem fetchLoop_stopCond {α : Type} (src : ListingSource α) (pageSize : Nat) :
    ∀ (fuel : Nat) (data : List α) (start reqs : Nat),
      src.recordsFiltered + 1 ≤ fuel + data.length →
      start = reqs * pageSize →
      src.recordsFiltered ≤ (fetchLoop src pageSize fuel data start reqs).1.length
      ∨ src.pages (pageSize * ((fetchLoop src pageSize fuel data start reqs).2 - 1)) = [] := by
  intro fuel
  induction fuel with
  | zero =>
    intro data start reqs h _
    left
    have : src.recordsFiltered ≤ data.length := by omega
    simpa [fetchLoop] using this
  | succ f ih =>
    intro data start reqs h hstart
    by_cases hge : src.recordsFiltered ≤ data.length
    · left
      rw [fetchLoop_of_ge src pageSize (f + 1) start reqs hge]
      exact hge
    · have hlt : data.length < src.recordsFiltered := Nat.lt_of_not_le hge
      cases hp : src.pages start with
      | nil =>
        right
        rw [fetchLoop_empty src pageSize f reqs hlt hp]
        simp only [Nat.add_sub_cancel]
        rw [Nat.mul_comm, ← hstart]
        exact hp
      | cons a l =>
        rw [fetchLoop_step src pageSize f reqs hlt (by rw [hp]; simp)]
        apply ih
        · have hlen : 1 ≤ (src.pages start).length := by rw [hp]; simp
          simp only [List.length_append]
          omega
        · rw [hstart]; ring

set_option maxRecDepth 100000 in
/-- Counterexample to C4 as stated: a listing source whose pages all
hold at most the page size (one row each) and which reports
`recordsFiltered = 250` with page size 100 — the client does accumulate
250 rows, but with 250 page requests, not 3. -/
theorem pagination_completeness_cex :
    (∀ k, (oneRowSource.pages k).length ≤ 100)
    ∧ oneRowSource.recordsFiltered = 250
    ∧ (fetch_all_reports oneRowSource 100).1.length = 250
    ∧ (fetch_all_reports oneRowSource 100).2 ≠ 3 :=
  ⟨fun k => by simp [oneRowSource], rfl, by decide, by decide⟩

/-- Claim C4 (amended): for a listing source serving full pages of 100
rows (100, 100 and 50 rows at offsets 0, 100, 200) and reporting
`recordsFiltered = 250`, the client accumulates exactly 250 rows using
exactly 3 page requests; and in general it stops requesting pages as
soon as the accumulated row count reaches `recordsFiltered` or a page
comes back empty (end-of-stream, not an error). -/
theorem pagination_completeness_amended :
    (∀ src : ListingSource Nat,
      src.recordsFiltered = 250 →
      (src.pages 0).length = 100 →
      (src.pages 100).length = 100 →
      (src.pages 200).length = 50 →
      (fetch_all_reports src 100).1.length = 250 ∧ (fetch_all_reports src 100).2 = 3)
    ∧ (∀ (α : Type) (src : ListingSource α) (pageSize : Nat),
        src.recordsFiltered ≤ (fetch_all_reports src pageSize).1.length
        ∨ src.pages (pageSize * ((fetch_all_reports src pageSize).2 - 1)) = []) := by
  constructor
  · intro src hrf h0 h1 h2
    have hne1 : src.pages 100 ≠ [] := by
      intro hnil; rw [hnil] at h1; simp at h1
    have hne2 : src.pages 200 ≠ [] := by
      intro hnil; rw [hnil] at h2; simp at h2
    rw [fetch_all_reports, hrf]
    rw [if_neg (by omega : ¬(250 ≤ (src.pages 0).length))]
    rw [fetchLoop_step src 100 250 1 (by rw [hrf]; omega) hne1]
    have hl1 : (src.pages 0 ++ src.pages 100).length = 200 := by
      simp [List.length_append, h0, h1]
    rw [show (100 : Nat) + 100 = 200 from rfl]
    rw [fetchLoop_step src 100 249 2 (by rw [hrf]; omega) hne2]
    have hl2 : ((src.pages 0 ++ src.pages 100) ++ src.pages 200).length = 250 := by
      simp [List.length_append, h0, h1, h2]
    rw [fetchLoop_of_ge src 100 249 300 3 (by rw [hrf]; omega)]
    exact ⟨hl2, rfl⟩
  · intro α src pageSize
    rw [fetch_all_reports]
    by_cases hge : src.recordsFiltered ≤ (src.pages 0).length
    · rw [if_pos hge]
      exact Or.inl hge
    · rw [if_neg hge]
      apply fetchLoop_stopCond
      · omega
      · rw [Nat.one_mul]

/-- Witness for C4 (amended): the concrete fake source with full pages
100/100/50 yields 250 rows in 3 requests. -/
theorem pagination_completeness_amended_witness :
    (fetch_all_reports fakeSource 100).1.length = 250
    ∧ (fetch_all_reports fakeSource 100).2 = 3 :=
  pagination_completeness_amended.1 fakeSource rfl (by decide) (by decide) (by decide)

/-! ## Claims C5 and C6 — price cache -/

/-- Updating the first matching cache row leaves a row with the new
price at the looked-up key. -/
theorem updateFirst_found (t : String) (d : Nat) (p : ℚ) (today : Nat) :
    ∀ c : List PriceCacheEntry,
      c.any (fun e => e.ticker = t ∧ e.date = d) = true →
      ∃ e, e ∈ updateFirst t d p today c ∧ e.ticker = t ∧ e.date = d ∧ e.price = p := by
  intro c
  induction c with
  | nil => intro h; simp at h
  | cons e es ih =>
    intro h
    by_cases he : e.ticker = t ∧ e.date = d
    · exact ⟨{ e with price := p, last_updated := today },
        by rw [updateFirst, if_pos he]; exact List.mem_cons_self _ _, he.1, he.2, rfl⟩
    · have htail : es.any (fun e => e.ticker = t ∧ e.date = d) = true := by
        simp only [List.any_cons, Bool.or_eq_true] at h
        rcases h with h | h
        · exact absurd (by simpa using h) he
        · exact h
      obtain ⟨e', hmem, hp⟩ := ih htail
      exact ⟨e', by rw [updateFirst, if_neg he]; exact List.mem_cons_of_mem _ hmem, hp⟩

/-- Counterexample to C5: with a cache entry present for the ticker,
`get_latest_price` still performs the external fetch, returns the
fetched close rather than the cached one, and on a failed fetch
returns `none` although the cache holds an entry. -/
theorem latest_price_not_cache_first_cex :
    (get_latest_price cacheA "AAPL" 100 (some [(99, 20)])).2.2 = true
    ∧ (get_latest_price cacheA "AAPL" 100 (some [(99, 20)])).1 = some 20
    ∧ (get_latest_price cacheA "AAPL" 100 none).1 = none := by
  refine ⟨by decide, by decide, by decide⟩

/-- Claim C5 (amended): `get_latest_price` always performs the external
fetch, regardless of cache contents; on a failed or empty download it
returns `none` leaving the cache unchanged; on success it returns the
window's last close and upserts it into the cache at its date. -/
theorem latest_price_always_fetches :
    ∀ (cache : List PriceCacheEntry) (ticker : String) (today : Nat)
      (download : Option (List (Nat × ℚ))),
      (get_latest_price cache ticker today download).2.2 = true
      ∧ (download = none →
          get_latest_price cache ticker today download = (none, cache, true))
      ∧ (download = some [] →
          get_latest_price cache ticker today download = (none, cache, true))
      ∧ (∀ hist d p, download = some hist → hist.getLast? = some (d, p) →
          (get_latest_price cache ticker today download).1 = some p
          ∧ ∃ e, e ∈ (get_latest_price cache ticker today download).2.1 ∧
              e.ticker = ticker ∧ e.date = d ∧ e.price = p) := by
  intro cache ticker today download
  refine ⟨?_, ?_, ?_, ?_⟩
  · cases download with
    | none => rfl
    | some hist =>
      cases hl : hist.getLast? with
      | none => simp [get_latest_price, hl]
      | some q =>
        obtain ⟨d, p⟩ := q
        simp [get_latest_price, hl]
  · intro h; subst h; rfl
  · intro h; subst h; rfl
  · intro hist d p hdl hlast
    subst hdl
    constructor
    · simp [get_latest_price, hlast]
    · by_cases hc : cache.any (fun e => e.ticker = ticker ∧ e.date = d) = true
      · obtain ⟨e, hmem, hp⟩ := updateFirst_found ticker d p today cache hc
        refine ⟨e, ?_, hp⟩
        simp only [get_latest_price, hlast]
        rw [if_pos hc]
        exact hmem
      · refine ⟨⟨ticker, d, p, today⟩, ?_, rfl, rfl, rfl⟩
        simp only [get_latest_price, hlast]
        rw [if_neg hc]
        simp

/-- Witness for C5 (amended): at a nonempty cache for the ticker, the
fetch happens, a failed fetch yields `none`, and a successful fetch
returns the last close and stores it. -/
theorem latest_price_always_fetches_witness :
    (get_latest_price cacheA "AAPL" 100 (some [(96, 15), (99, 20)])).2.2 = true
    ∧ get_latest_price cacheA "AAPL" 100 none = (none, cacheA, true)
    ∧ (get_latest_price cacheA "AAPL" 100 (some [(96, 15), (99, 20)])).1 = some 20 :=
  ⟨(latest_price_always_fetches cacheA "AAPL" 100 (some [(96, 15), (99, 20)])).1,
   (latest_price_always_fetches cacheA "AAPL" 100 none).2.1 rfl,
   ((latest_price_always_fetches cacheA "AAPL" 100 (some [(96, 15), (99, 20)])).2.2.2
     [(96, 15), (99, 20)] 99 20 rfl rfl).1⟩

/-- The later-of-two selection yields one of its inputs. -/
theorem pickLater_eq_some {acc : Option PriceCacheEntry} {x e : PriceCacheEntry}
    (h : pickLater acc x = some e) : acc = some e ∨ e = x := by
  cases acc with
  | none =>
    rw [pickLater] at h
    simp at h
    exact Or.inr h.symm
  | some b =>
    rw [pickLater] at h
    by_cases hlt : b.date < x.date
    · rw [if_pos hlt] at h
      simp at h
      exact Or.inr h.symm
    · rw [if_neg hlt] at h
      exact Or.inl h

/-- The running best of the cache query is drawn from the list. -/
theorem foldlPick_mem :
    ∀ (l : List PriceCacheEntry) (acc : Option PriceCacheEntry) (e : PriceCacheEntry),
      l.foldl pickLater acc = some e →
      acc = some e ∨ e ∈ l := by
  intro l
  induction l with
  | nil => intro acc e h; exact Or.inl h
  | cons x xs ih =>
    intro acc e h
    rcases ih _ e h with hstep | hmem
    · rcases pickLater_eq_some hstep with hacc | hx
      · exact Or.inl hacc
      · exact Or.inr (by simp [hx])
    · exact Or.inr (List.mem_cons_of_mem _ hmem)

/-- A hit of the cache query is a stored entry for the ticker dated at
or before the target. -/
theorem cacheBest_some {cache : List PriceCacheEntry} {t : String} {D : Nat}
    {e : PriceCacheEntry} (h : cacheBest cache t D = some e) :
    e ∈ cache ∧ e.ticker = t ∧ e.date ≤ D := by
  rw [cacheBest] at h
  rcases foldlPick_mem _ none e h with hacc | hmem
  · simp at hacc
  · have := List.mem_filter.mp hmem
    refine ⟨this.1, ?_⟩
    have hp := this.2
    simp only [decide_eq_true_eq] at hp
    exact hp

/-- With no stored entry for the ticker, the cache query misses. -/
theorem cacheBest_none_of_no_ticker (cache : List PriceCacheEntry) (t : String)
    (D : Nat) (h : ∀ e ∈ cache, e.ticker ≠ t) : cacheBest cache t D = none := by
  rw [cacheBest]
  have hfil : cache.filter (fun e => e.ticker = t ∧ e.date ≤ D) = [] := by
    rw [List.filter_eq_nil_iff]
    intro e he
    simp [h e he]
  rw [hfil]
  rfl

/-- The backfill insert loop preserves the `(ticker, date)` uniqueness
invariant. -/
theorem insertHist_nodup (t : String) (target : Nat) :
    ∀ (hist : List (Nat × ℚ)) (cache : List PriceCacheEntry),
      CacheKeysDistinct cache → CacheKeysDistinct (insertHist t target cache hist) := by
  intro hist
  induction hist with
  | nil => intro cache h; exact h
  | cons q rest ih =>
    obtain ⟨d, p⟩ := q
    intro cache h
    by_cases hc : cache.any (fun e => e.ticker = t ∧ e.date = d) = true
    · rw [insertHist, if_pos hc]
      exact ih cache h
    · rw [insertHist, if_neg hc]
      apply ih
      rw [CacheKeysDistinct, List.pairwise_append]
      refine ⟨h, by simp, ?_⟩
      intro a ha b hb
      simp only [List.mem_singleton] at hb
      subst hb
      intro hcontra
      apply hc
      simp only [List.any_eq_true]
      exact ⟨a, ha, by simpa using hcontra⟩

/-- Claim C6: for a ticker with no cache entries, a successful
`get_price_on_or_before` call writes at least one new cache row for the
ticker dated at or before the target, a second call for the same
ticker and date answers from the cache with no external fetch and the
same price, a failed or empty download yields `none` (no exception in
the model — the function is total), and inserts keep the per
`(ticker, date)` uniqueness. -/
theorem price_on_or_before_spec :
    ∀ (cache : List PriceCacheEntry) (ticker : String) (D : Nat)
      (download : Option (List (Nat × ℚ))),
      (∀ e ∈ cache, e.ticker ≠ ticker) →
      (∀ p, (get_price_on_or_before cache ticker D download).1 = some p →
        (∃ e, e ∈ (get_price_on_or_before cache ticker D download).2.1 ∧
            e ∉ cache ∧ e.ticker = ticker ∧ e.date ≤ D)
        ∧ get_price_on_or_before
            (get_price_on_or_before cache ticker D download).2.1 ticker D none =
          (some p, (get_price_on_or_before cache ticker D download).2.1, false))
      ∧ ((download = none ∨ download = some []) →
          (get_price_on_or_before cache ticker D download).1 = none)
      ∧ (CacheKeysDistinct cache →
          CacheKeysDistinct (get_price_on_or_before cache ticker D download).2.1) := by
  intro cache ticker D download hno
  have hmiss : cacheBest cache ticker D = none :=
    cacheBest_none_of_no_ticker cache ticker D hno
  refine ⟨?_, ?_, ?_⟩
  · intro p hp
    cases download with
    | none =>
      rw [get_price_on_or_before, hmiss] at hp
      simp at hp
    | some hist =>
      cases hist with
      | nil =>
        rw [get_price_on_or_before, hmiss] at hp
        simp at hp
      | cons q rest =>
        rw [get_price_on_or_before, hmiss] at hp ⊢
        simp only [List.isEmpty_cons, if_false, Bool.false_eq_true] at hp ⊢
        obtain ⟨e, hbest, hep⟩ := Option.map_eq_some'.mp hp
        obtain ⟨hmem, het, hed⟩ := cacheBest_some hbest
        constructor
        · refine ⟨e, hmem, ?_, het, hed⟩
          intro hin
          exact hno e hin het
        · rw [get_price_on_or_before, hbest]
          simp [hep]
  · intro hd
    rcases hd with rfl | rfl
    · rw [get_price_on_or_before, hmiss]
    · rw [get_price_on_or_before, hmiss]
      rfl
  · intro hnd
    cases download with
    | none =>
      rw [get_price_on_or_before, hmiss]
      exact hnd
    | some hist =>
      cases hist with
      | nil =>
        rw [get_price_on_or_before, hmiss]
        exact hnd
      | cons q rest =>
        rw [get_price_on_or_before, hmiss]
        simp only [List.isEmpty_cons, if_false, Bool.false_eq_true]
        exact insertHist_nodup ticker D (q :: rest) cache hnd

/-- Witness for C6: a first call on an empty cache with a one-day
window writes the row, and the second call answers from the cache with
no fetch. -/
theorem price_on_or_before_spec_witness :
    (∃ e, e ∈ (get_price_on_or_before [] "AAPL" 100 (some [(95, 10)])).2.1 ∧
        e ∉ ([] : List PriceCacheEntry) ∧ e.ticker = "AAPL" ∧ e.date ≤ 100)
    ∧ get_price_on_or_before
        (get_price_on_or_before [] "AAPL" 100 (some [(95, 10)])).2.1 "AAPL" 100 none =
      (some 10, (get_price_on_or_before [] "AAPL" 100 (some [(95, 10)])).2.1, false)
    ∧ (get_price_on_or_before [] "AAPL" 100 none).1 = none :=
  ⟨((price_on_or_before_spec [] "AAPL" 100 (some [(95, 10)]) (by simp)).1 10 (by decide)).1,
   ((price_on_or_before_spec [] "AAPL" 100 (some [(95, 10)]) (by simp)).1 10 (by decide)).2,
   (price_on_or_before_spec [] "AAPL" 100 none (by simp)).2.1 (Or.inl rfl)⟩

end Nussif
